import Mathlib

/-!
Shallow embedding of the model cache and session lifecycle manager of
`src/session.ts` (repository `starmorph/web-ai`).

The persistent byte store (localforage over IndexedDB) is modelled as an
association list from string keys to byte blobs, enumerated in store order
by `keys`.  Byte blobs are lists of bytes; only their identity and length
matter to the code under verification.  Asynchronous store operations can
reject in JavaScript; rejection is modelled by a fault oracle (`Faults`)
that says which operations throw.  The network (`fetch`), the decompressor
(`pako.inflate`) and the numerical runtime (`ort.InferenceSession.create`)
are external collaborators and enter as parameters of an `Env`: `none`
models a rejected promise / thrown error.
-/

namespace WebAI

/-- A byte blob (`ArrayBuffer`); `byteLength` is the list length. -/
abbrev Bytes := List Nat

/-- The persistent key→blob store, in enumeration order. -/
abbrev Store := List (String × Bytes)

/-- A named-tensor mapping, abstract: tensors are opaque to this layer. -/
abbrev TensorMap := List (String × Nat)

/-- Errors surfaced to callers of the session layer. -/
inductive Err where
  | network        -- the transfer could not complete
  | decode         -- decompression failed
  | createFail     -- the runtime could not construct a runnable session
  | notInitialized -- run or names called before a successful init
deriving DecidableEq, Repr

/-- `localforage.getItem`: the first blob stored under the key. -/
def storeGet (s : Store) (k : String) : Option Bytes :=
  (s.find? (fun e => e.1 = k)).map (fun e => e.2)

/-- `localforage.setItem`: overwrite the blob stored under the key.  The
underlying store does not promise an enumeration order, so overwriting is
modelled as replacing any previous entry and placing the key last. -/
def storeSet (s : Store) (k : String) (v : Bytes) : Store :=
  s.filter (fun e => e.1 ≠ k) ++ [(k, v)]

/-- `localforage.removeItem`: drop every entry with the key. -/
def storeRemove (s : Store) (k : String) : Store :=
  s.filter (fun e => e.1 ≠ k)

/-- `localforage.keys`: all keys in enumeration order. -/
def storeKeys (s : Store) : List String :=
  s.map (fun e => e.1)

/-- Total byte size held by the store. -/
def storeTotal (s : Store) : Nat :=
  (s.map (fun e => e.2.length)).sum

/-- The store keys are pairwise distinct (IndexedDB keys are unique). -/
def KeysNodup (s : Store) : Prop :=
  (s.map (fun e => e.1)).Nodup

instance (s : Store) : Decidable (KeysNodup s) := by
  unfold KeysNodup; infer_instance

/-- Fault oracle for the asynchronous store operations: `true` means the
corresponding promise rejects (the operation throws). -/
structure Faults where
  getFail : String → Bool
  keysFail : Bool
  setFail : String → Bool
  removeFail : String → Bool

/-- The fault-free oracle: every store operation succeeds. -/
def noFaults : Faults :=
  ⟨fun _ => false, false, fun _ => false, fun _ => false⟩

/-- A constructed runnable session handle (`ort.InferenceSession`). -/
structure Handle where
  runFn : TensorMap → TensorMap
  inputNames : List String
  outputNames : List String

/-- External collaborators: the network, the decompressor and the
numerical runtime.  `none` models a thrown error / rejected promise. -/
structure Env where
  net : String → Option Bytes
  infl : Bytes → Option Bytes
  create : Bytes → Option Handle

/-- JavaScript `string.split(sep)` for a one-character separator: the
result is never empty, and the empty string splits to one empty chunk. -/
def splitOnChar (c : Char) : List Char → List (List Char)
  | [] => [[]]
  | x :: xs =>
    let r := splitOnChar c xs
    if x = c then [] :: r
    else
      match r with
      | [] => [[x]]
      | y :: ys => (x :: y) :: ys

/-- `modelPath.split(".").pop()`: the segment after the last dot, or the
whole path when it has no dot. -/
def extension (path : String) : String :=
  String.mk ((splitOnChar '.' path.data).getLastD [])

/-- The decode stage of `fetchData`: inflate the payload when the
extension is `gz`, otherwise pass the download through unchanged. -/
def decodeBytes (env : Env) (path : String) (raw : Bytes) : Option Bytes :=
  if extension path = "gz" then env.infl raw else some raw

/-- The size-reading pass of `validateCache`: one `getItem` per key,
recording each byte length.  `none` models the thrown error when a read
rejects or returns null (null.byteLength throws). -/
def readSizes (f : Faults) (s : Store) : List String → Option (List (String × Nat))
  | [] => some []
  | k :: ks =>
    if f.getFail k then none
    else
      match storeGet s k with
      | none => none
      | some v =>
        match readSizes f s ks with
        | none => none
        | some rest => some ((k, v.length) :: rest)

/-- The eviction loop of `validateCache`: while the projected size exceeds
the budget, take the first remaining map entry, subtract its size and
remove it from the store.  When the entries run out the destructuring of
`undefined` throws and is caught, leaving the store as it stands; a
rejected `removeItem` likewise aborts the loop via the catch block. -/
def evictLoop (f : Faults) (budget : Nat) : List (String × Nat) → Nat → Store → Store
  | [], _, s => s
  | (k, sz) :: rest, newSize, s =>
    if newSize > budget then
      if f.removeFail k then s
      else evictLoop f budget rest (newSize - sz) (storeRemove s k)
    else s

/-- `Session.validateCache`: enumerate keys, read every size, then evict
until the projected total fits the budget.  Any thrown store error is
caught and logged, leaving the store exactly as the loop left it (for a
read error, untouched). -/
def validateCache (f : Faults) (budget : Nat) (incoming : Nat) (s : Store) : Store :=
  if f.keysFail then s
  else
    match readSizes f s (storeKeys s) with
    | none => s
    | some sizes =>
      let cacheSize := (sizes.map (fun e => e.2)).sum
      evictLoop f budget sizes (cacheSize + incoming) s

/-- `Session.fetchData`: fetch, conditionally inflate, then either skip
caching with a warning (oversized) or make room and insert.  The final
`setItem` is not awaited, so its failure is invisible to the caller.
Returns the artifact bytes and the resulting store. -/
def fetchData (env : Env) (f : Faults) (budget : Nat) (path : String) (s : Store) :
    Except Err (Bytes × Store) :=
  match env.net path with
  | none => .error .network
  | some raw =>
    match decodeBytes env path raw with
    | none => .error .decode
    | some modelData =>
      if modelData.length > budget then
        .ok (modelData, s)
      else
        let s1 := validateCache f budget modelData.length s
        let s2 := if f.setFail path then s1 else storeSet s1 path modelData
        .ok (modelData, s2)

/-- The artifact-resolution part of `Session.init`, with the number of
`fetchData` invocations performed.  The try block covers both the cache
lookup and the on-miss fetch; a throw from either lands in the catch
block, which logs and fetches again. -/
def initResolve (env : Env) (f : Faults) (budget : Nat) (path : String) (s : Store) :
    Except Err (Bytes × Store) × Nat :=
  if f.getFail path then
    (fetchData env f budget path s, 1)
  else
    match storeGet s path with
    | some cached => (.ok (cached, s), 0)
    | none =>
      match fetchData env f budget path s with
      | .ok r => (.ok r, 1)
      | .error _ => (fetchData env f budget path s, 2)

/-- `Session`: the cache budget captured at construction and at most one
runnable handle (`ortSession`), absent until `init` succeeds. -/
structure Session where
  ortSession : Option Handle
  cacheSize : Nat

/-- Outcome of `Session.init`: the result, the post-state of the session
and of the store, and how many `fetchData` invocations ran. -/
structure InitOut where
  result : Except Err Unit
  sess : Session
  store : Store
  fetches : Nat

/-- `Session.init`: resolve the bytes, then construct the runnable handle;
`this.ortSession` is assigned only after a successful construction, so any
failure leaves the session state unchanged. -/
def Session.init (env : Env) (f : Faults) (path : String) (sess : Session) (s : Store) :
    InitOut :=
  match initResolve env f sess.cacheSize path s with
  | (.error e, n) => ⟨.error e, sess, s, n⟩
  | (.ok (bytes, s1), n) =>
    match env.create bytes with
    | none => ⟨.error .createFail, sess, s1, n⟩
    | some h => ⟨.ok (), { sess with ortSession := some h }, s1, n⟩

/-- `Session.run`: guarded by the not-initialized check, then delegates. -/
def Session.run (sess : Session) (input : TensorMap) : Except Err TensorMap :=
  match sess.ortSession with
  | none => .error .notInitialized
  | some h => .ok (h.runFn input)

/-- `Session.inputNames`: same guard, then delegates to the handle. -/
def Session.inputNames (sess : Session) : Except Err (List String) :=
  match sess.ortSession with
  | none => .error .notInitialized
  | some h => .ok h.inputNames

/-- `Session.outputNames`: same guard, then delegates to the handle. -/
def Session.outputNames (sess : Session) : Except Err (List String) :=
  match sess.ortSession with
  | none => .error .notInitialized
  | some h => .ok h.outputNames

/-- The store effect of a successful, non-oversized insert: exactly the
else branch of `fetchData` (make room, then `setItem`), fault-free. -/
def cacheInsert (budget : Nat) (path : String) (bytes : Bytes) (s : Store) : Store :=
  if bytes.length > budget then s
  else storeSet (validateCache noFaults budget bytes.length s) path bytes

/-- The key,size view of the store that `validateCache` computes. -/
def sizesOf (s : Store) : List (String × Nat) :=
  s.map (fun e => (e.1, e.2.length))

/-- A sample runnable handle, for concrete instantiations. -/
def sampleHandle : Handle :=
  ⟨fun t => t, ["input"], ["output"]⟩

/-- An environment whose network always fails, for concrete instantiations. -/
def failEnv : Env :=
  ⟨fun _ => none, fun _ => none, fun _ => none⟩

/-- An environment that downloads three bytes and inflates them to two,
for concrete instantiations. -/
def gzEnv : Env :=
  ⟨fun _ => some [1, 2, 3], fun _ => some [9, 9], fun _ => none⟩

/-- An environment that downloads two raw bytes, for concrete
instantiations. -/
def plainEnv : Env :=
  ⟨fun _ => some [1, 2], fun _ => none, fun _ => none⟩

/-- An environment that downloads three raw bytes, for concrete
instantiations. -/
def exactEnv : Env :=
  ⟨fun _ => some [1, 2, 3], fun _ => none, fun _ => none⟩

/-- A fault oracle where reading the key "old" rejects, for concrete
instantiations. -/
def getFailFaults : Faults :=
  ⟨fun k => k = "old", false, fun _ => false, fun _ => false⟩

/-- A session that already holds a runnable handle, for concrete
instantiations. -/
def readySession : Session :=
  ⟨some sampleHandle, 10⟩

/-! ### Store lemmas -/

theorem noFaults_getFail (k : String) : noFaults.getFail k = false := rfl

theorem noFaults_keysFail : noFaults.keysFail = false := rfl

theorem noFaults_setFail (k : String) : noFaults.setFail k = false := rfl

theorem storeGet_cons_self (k : String) (v : Bytes) (s : Store) :
    storeGet ((k, v) :: s) k = some v := by
  simp [storeGet, List.find?]

theorem storeGet_cons_ne (k k' : String) (v : Bytes) (s : Store) (h : k' ≠ k) :
    storeGet ((k, v) :: s) k' = storeGet s k' := by
  simp [storeGet, List.find?, Ne.symm h]

theorem storeGet_set_self (s : Store) (k : String) (v : Bytes) :
    storeGet (storeSet s k v) k = some v := by
  unfold storeGet storeSet
  rw [List.find?_append]
  have h1 : (s.filter (fun e => e.1 ≠ k)).find? (fun e => e.1 = k) = none := by
    rw [List.find?_eq_none]
    intro e he
    have := List.of_mem_filter he
    simpa using this
  simp [h1, List.find?]

theorem storeRemove_cons_self (k : String) (v : Bytes) (s : Store)
    (h : k ∉ storeKeys s) :
    storeRemove ((k, v) :: s) k = s := by
  have hall : ∀ e ∈ s, (fun e => decide (e.1 ≠ k)) e = true := by
    intro e he
    have h1 : e.1 ∈ storeKeys s := List.mem_map_of_mem (fun e => e.1) he
    simp only [decide_eq_true_eq]
    exact fun hek => h (hek ▸ h1)
  unfold storeRemove
  simp only [List.filter_cons]
  simp only [show (decide ((k, v).1 ≠ k)) = false by simp, Bool.false_eq_true, if_false]
  exact List.filter_eq_self.mpr hall

theorem sum_le_of_sublist {l₁ l₂ : List Nat} (h : l₁.Sublist l₂) : l₁.sum ≤ l₂.sum := by
  induction h with
  | slnil => exact Nat.le_refl 0
  | cons a _ ih => simpa using Nat.le_trans ih (Nat.le_add_left _ _)
  | cons₂ a _ ih => simpa using ih

theorem storeTotal_sublist {s₁ s₂ : Store} (h : s₁.Sublist s₂) :
    storeTotal s₁ ≤ storeTotal s₂ :=
  sum_le_of_sublist (h.map (fun e => e.2.length))

theorem storeTotal_set_le (s : Store) (k : String) (v : Bytes) :
    storeTotal (storeSet s k v) ≤ storeTotal s + v.length := by
  unfold storeSet storeTotal
  rw [List.map_append, List.sum_append]
  have h1 : ((s.filter (fun e => e.1 ≠ k)).map (fun e => e.2.length)).sum
      ≤ (s.map (fun e => e.2.length)).sum :=
    sum_le_of_sublist ((List.filter_sublist s).map (fun e => e.2.length))
  simpa using Nat.add_le_add_right h1 v.length

theorem keysNodup_sublist {s₁ s₂ : Store} (h : s₁.Sublist s₂) (hn : KeysNodup s₂) :
    KeysNodup s₁ :=
  List.Nodup.sublist (h.map (fun e => e.1)) hn

theorem keysNodup_set (s : Store) (k : String) (v : Bytes) (hn : KeysNodup s) :
    KeysNodup (storeSet s k v) := by
  unfold KeysNodup storeSet
  rw [List.map_append]
  apply List.Nodup.append
  · exact List.Nodup.sublist ((List.filter_sublist s).map (fun e => e.1)) hn
  · simp
  · intro a ha hb
    simp only [List.mem_map, List.mem_singleton] at ha hb
    obtain ⟨e, he, rfl⟩ := ha
    obtain ⟨b, rfl, hb2⟩ := hb
    have := List.of_mem_filter he
    simp only [decide_eq_true_eq] at this
    exact this hb2.symm

/-! ### readSizes lemmas -/

theorem readSizes_cons_irrel (k : String) (v : Bytes) (s : Store) (ks : List String)
    (h : k ∉ ks) :
    readSizes noFaults ((k, v) :: s) ks = readSizes noFaults s ks := by
  induction ks with
  | nil => rfl
  | cons k1 ks ih =>
    have hk1 : k1 ≠ k := fun he => h (he ▸ List.mem_cons_self k1 ks)
    have hks : k ∉ ks := fun hm => h (List.mem_cons_of_mem k1 hm)
    simp only [readSizes, noFaults_getFail, Bool.false_eq_true, if_false,
      storeGet_cons_ne k k1 v s hk1, ih hks]

theorem readSizes_eq (s : Store) (hn : KeysNodup s) :
    readSizes noFaults s (storeKeys s) = some (sizesOf s) := by
  induction s with
  | nil => rfl
  | cons e s ih =>
    obtain ⟨k, v⟩ := e
    have hn' : KeysNodup s := List.Nodup.of_cons hn
    have hk : k ∉ storeKeys s := by
      have := List.nodup_cons.mp hn
      simpa [storeKeys] using this.1
    show readSizes noFaults ((k, v) :: s) (k :: storeKeys s) = _
    simp only [readSizes, noFaults_getFail, Bool.false_eq_true, if_false,
      storeGet_cons_self, readSizes_cons_irrel k v s (storeKeys s) hk, ih hn',
      sizesOf, List.map_cons]

theorem readSizes_fail (f : Faults) (s : Store) :
    ∀ ks : List String, (∃ k ∈ ks, f.getFail k = true) → readSizes f s ks = none := by
  intro ks
  induction ks with
  | nil => rintro ⟨k, hk, _⟩; cases hk
  | cons k1 ks ih =>
    rintro ⟨k, hk, hf⟩
    by_cases h1 : f.getFail k1 = true
    · unfold readSizes; rw [if_pos h1]
    · have hk2 : k ∈ ks := by
        cases List.mem_cons.mp hk with
        | inl he => exact absurd (he ▸ hf) h1
        | inr hm => exact hm
      have hrec : readSizes f s ks = none := ih ⟨k, hk2, hf⟩
      unfold readSizes
      rw [if_neg h1]
      cases hg : storeGet s k1 with
      | none => rfl
      | some v => simp only [hrec]

theorem sum_sizesOf (s : Store) :
    ((sizesOf s).map (fun e => e.2)).sum = storeTotal s := by
  unfold sizesOf storeTotal
  rw [List.map_map]
  rfl

/-! ### Eviction lemmas -/

theorem evictLoop_sublist (f : Faults) (budget : Nat) :
    ∀ (entries : List (String × Nat)) (n : Nat) (s : Store),
      (evictLoop f budget entries n s).Sublist s := by
  intro entries
  induction entries with
  | nil => intro n s; exact List.Sublist.refl s
  | cons e rest ih =>
    intro n s
    obtain ⟨k, sz⟩ := e
    unfold evictLoop
    by_cases h : n > budget
    · simp only [h, if_true]
      by_cases hr : f.removeFail k
      · simp [hr]
      · simp only [hr, if_false]
        exact List.Sublist.trans (ih _ _) (List.filter_sublist s)
    · simp [h]

theorem evictLoop_noop (f : Faults) (budget : Nat) (entries : List (String × Nat))
    (n : Nat) (s : Store) (h : ¬ n > budget) :
    evictLoop f budget entries n s = s := by
  cases entries with
  | nil => rfl
  | cons e rest => obtain ⟨k, sz⟩ := e; simp [evictLoop, h]

theorem evict_le (budget : Nat) :
    ∀ (s : Store) (incoming : Nat), KeysNodup s → incoming ≤ budget →
      storeTotal (evictLoop noFaults budget (sizesOf s) (storeTotal s + incoming) s)
        + incoming ≤ budget := by
  intro s
  induction s with
  | nil =>
    intro incoming _ hle
    simpa [sizesOf, evictLoop, storeTotal] using hle
  | cons e s ih =>
    intro incoming hn hle
    obtain ⟨k, v⟩ := e
    have hn' : KeysNodup s := List.Nodup.of_cons hn
    have hk : k ∉ storeKeys s := by
      have := List.nodup_cons.mp hn
      simpa [storeKeys] using this.1
    show storeTotal (evictLoop noFaults budget ((k, v.length) :: sizesOf s) _ _)
        + incoming ≤ budget
    unfold evictLoop
    by_cases h : storeTotal ((k, v) :: s) + incoming > budget
    · simp only [h, if_true, noFaults, if_false]
      rw [storeRemove_cons_self k v s hk]
      have htot : storeTotal ((k, v) :: s) = v.length + storeTotal s := by
        simp [storeTotal]
      have hsub : storeTotal ((k, v) :: s) + incoming - v.length
          = storeTotal s + incoming := by
        rw [htot]; omega
      rw [hsub]
      exact ih incoming hn' hle
    · simp only [h, if_false]
      omega

theorem validateCache_noFaults (budget incoming : Nat) (s : Store) (hn : KeysNodup s) :
    validateCache noFaults budget incoming s
      = evictLoop noFaults budget (sizesOf s) (storeTotal s + incoming) s := by
  unfold validateCache
  simp only [noFaults_keysFail, Bool.false_eq_true, if_false, readSizes_eq s hn,
    sum_sizesOf]

theorem validateCache_sublist (f : Faults) (budget incoming : Nat) (s : Store) :
    (validateCache f budget incoming s).Sublist s := by
  unfold validateCache
  by_cases hkf : f.keysFail
  · simp [hkf]
  · simp only [hkf, if_false]
    cases h : readSizes f s (storeKeys s) with
    | none => exact List.Sublist.refl s
    | some sizes => exact evictLoop_sublist f budget sizes _ s

theorem validateCache_total (budget incoming : Nat) (s : Store)
    (hn : KeysNodup s) (hle : incoming ≤ budget) :
    storeTotal (validateCache noFaults budget incoming s) + incoming ≤ budget := by
  rw [validateCache_noFaults budget incoming s hn]
  exact evict_le budget s incoming hn hle

/-! ### The insert step -/

theorem cacheInsert_total (budget : Nat) (path : String) (bytes : Bytes) (s : Store)
    (hn : KeysNodup s) (hle : bytes.length ≤ budget) :
    storeTotal (cacheInsert budget path bytes s) ≤ budget := by
  unfold cacheInsert
  have hgt : ¬ bytes.length > budget := Nat.not_lt.mpr hle
  simp only [hgt, if_false]
  have h1 := storeTotal_set_le (validateCache noFaults budget bytes.length s) path bytes
  have h2 := validateCache_total budget bytes.length s hn hle
  omega

theorem cacheInsert_keysNodup (budget : Nat) (path : String) (bytes : Bytes) (s : Store)
    (hn : KeysNodup s) : KeysNodup (cacheInsert budget path bytes s) := by
  unfold cacheInsert
  by_cases h : bytes.length > budget
  · simpa [h] using hn
  · simp only [h, if_false]
    exact keysNodup_set _ path bytes
      (keysNodup_sublist (validateCache_sublist noFaults budget bytes.length s) hn)

/-! ### fetchData lemmas -/

theorem decodeBytes_gz (env : Env) (path : String) (raw : Bytes)
    (hext : extension path = "gz") : decodeBytes env path raw = env.infl raw := by
  simp only [decodeBytes, if_pos hext]

theorem decodeBytes_not_gz (env : Env) (path : String) (raw : Bytes)
    (hext : extension path ≠ "gz") : decodeBytes env path raw = some raw := by
  simp only [decodeBytes, if_neg hext]

theorem fetchData_eq_of_decode (env : Env) (f : Faults) (budget : Nat) (path : String)
    (s : Store) (raw b : Bytes) (hnet : env.net path = some raw)
    (hdec : decodeBytes env path raw = some b) :
    fetchData env f budget path s =
      if b.length > budget then .ok (b, s)
      else
        .ok (b,
          if f.setFail path = true then validateCache f budget b.length s
          else storeSet (validateCache f budget b.length s) path b) := by
  simp only [fetchData, hnet, hdec]

theorem fetchData_decode_error (env : Env) (f : Faults) (budget : Nat) (path : String)
    (s : Store) (raw : Bytes) (hnet : env.net path = some raw)
    (hdec : decodeBytes env path raw = none) :
    fetchData env f budget path s = .error .decode := by
  simp only [fetchData, hnet, hdec]

/-! ### Claim theorems -/

/-- Claim C1: for every sequence of successful cache inserts in which each
artifact fits the budget, after budget enforcement runs and the insert
completes the total stored bytes are at most the budget. -/
theorem c1_budget_invariant (budget : Nat) :
    ∀ (inserts : List (String × Bytes)) (s₀ : Store), KeysNodup s₀ →
      (∀ p ∈ inserts, p.2.length ≤ budget) → inserts ≠ [] →
      storeTotal (inserts.foldl (fun s p => cacheInsert budget p.1 p.2 s) s₀) ≤ budget := by
  intro inserts
  induction inserts with
  | nil => intro s₀ _ _ hne; exact absurd rfl hne
  | cons p rest ih =>
    intro s₀ hn hle _
    cases rest with
    | nil =>
      simp only [List.foldl]
      exact cacheInsert_total budget p.1 p.2 s₀ hn (hle p (List.mem_cons_self p []))
    | cons q rest2 =>
      simp only [List.foldl]
      exact ih (cacheInsert budget p.1 p.2 s₀)
        (cacheInsert_keysNodup budget p.1 p.2 s₀ hn)
        (fun r hr => hle r (List.mem_cons_of_mem p hr)) (by simp)

/-- Witness for C1: three four-byte inserts against a ten-byte budget. -/
theorem c1_budget_invariant_witness :
    KeysNodup ([] : Store) ∧
    (∀ p ∈ ([("a", [0, 0, 0, 0]), ("b", [0, 0, 0, 0]), ("c", [0, 0, 0, 0])] :
        List (String × Bytes)), p.2.length ≤ 10) ∧
    storeTotal (([("a", [0, 0, 0, 0]), ("b", [0, 0, 0, 0]), ("c", [0, 0, 0, 0])] :
        List (String × Bytes)).foldl (fun s p => cacheInsert 10 p.1 p.2 s) []) ≤ 10 :=
  ⟨by decide, by decide,
    c1_budget_invariant 10 _ [] (by decide) (by decide) (by decide)⟩

/-- Claim C2: once a resolve has left the artifact stored under its path,
a second resolve of the same path returns the stored bytes and performs
zero fetches. -/
theorem c2_cache_hit_short_circuits (env : Env) (budget : Nat) (path : String)
    (s₀ s₁ : Store) (b : Bytes) (n : Nat)
    (_hfirst : initResolve env noFaults budget path s₀ = (.ok (b, s₁), n))
    (hstored : storeGet s₁ path = some b) :
    initResolve env noFaults budget path s₁ = (.ok (b, s₁), 0) := by
  unfold initResolve
  rw [if_neg (by simp [noFaults])]
  rw [hstored]

/-- Witness for C2: a first resolve on an empty store caches the download
and the second resolve hits the cache with zero fetches. -/
theorem c2_cache_hit_short_circuits_witness :
    initResolve plainEnv noFaults 10 "m" [] = (.ok ([1, 2], [("m", [1, 2])]), 1) ∧
    storeGet [("m", [1, 2])] "m" = some [1, 2] ∧
    initResolve plainEnv noFaults 10 "m" [("m", [1, 2])] =
      (.ok ([1, 2], [("m", [1, 2])]), 0) :=
  ⟨rfl, rfl,
    c2_cache_hit_short_circuits plainEnv 10 "m" [] [("m", [1, 2])] [1, 2] 1
      rfl rfl⟩

/-- Claim C3: a fetched artifact strictly larger than the budget is
returned to the caller with the store left exactly unchanged. -/
theorem c3_oversized_never_cached (env : Env) (f : Faults) (budget : Nat)
    (path : String) (s : Store) (raw b : Bytes)
    (hnet : env.net path = some raw) (hdec : decodeBytes env path raw = some b)
    (hsize : b.length > budget) :
    fetchData env f budget path s = .ok (b, s) := by
  rw [fetchData_eq_of_decode env f budget path s raw b hnet hdec, if_pos hsize]

/-- Witness for C3: a seven-byte download against a five-byte budget
leaves the pre-existing entry untouched. -/
theorem c3_oversized_never_cached_witness :
    exactEnv.net "m" = some [1, 2, 3] ∧
    decodeBytes exactEnv "m" [1, 2, 3] = some [1, 2, 3] ∧
    fetchData exactEnv noFaults 2 "m" [("old", [7])] = .ok ([1, 2, 3], [("old", [7])]) :=
  ⟨rfl, by decide,
    c3_oversized_never_cached exactEnv noFaults 2 "m" [("old", [7])] [1, 2, 3] [1, 2, 3]
      rfl (by decide) (by decide)⟩

/-- Claim C4: `run`, `inputNames` and `outputNames` fail with the
not-initialized error exactly when the runnable handle is absent, and
delegate to the handle otherwise. -/
theorem c4_not_initialized_guard (sess : Session) (input : TensorMap) :
    (sess.ortSession = none →
      sess.run input = .error .notInitialized ∧
      sess.inputNames = .error .notInitialized ∧
      sess.outputNames = .error .notInitialized) ∧
    (∀ h, sess.ortSession = some h →
      sess.run input = .ok (h.runFn input) ∧
      sess.inputNames = .ok h.inputNames ∧
      sess.outputNames = .ok h.outputNames) := by
  constructor
  · intro h
    simp [Session.run, Session.inputNames, Session.outputNames, h]
  · intro hh h
    simp [Session.run, Session.inputNames, Session.outputNames, h]

/-- Witness for C4: the guard on a fresh session and delegation on a
ready session, at a concrete input. -/
theorem c4_not_initialized_guard_witness :
    (Session.mk none 10).run [] = .error .notInitialized ∧
    (Session.mk none 10).inputNames = .error .notInitialized ∧
    (Session.mk none 10).outputNames = .error .notInitialized ∧
    readySession.run [] = .ok (sampleHandle.runFn []) ∧
    readySession.inputNames = .ok sampleHandle.inputNames :=
  ⟨((c4_not_initialized_guard (Session.mk none 10) []).1 rfl).1,
   ((c4_not_initialized_guard (Session.mk none 10) []).1 rfl).2.1,
   ((c4_not_initialized_guard (Session.mk none 10) []).1 rfl).2.2,
   ((c4_not_initialized_guard readySession []).2 sampleHandle rfl).1,
   ((c4_not_initialized_guard readySession []).2 sampleHandle rfl).2.1⟩

/-- Claim C5: when the cache read for the path throws, resolve does not
propagate the store error: it falls through to a fetch and returns the
fetched bytes. -/
theorem c5_corrupt_cache_recovery (env : Env) (f : Faults) (budget : Nat)
    (path : String) (s s₁ : Store) (b : Bytes)
    (hfail : f.getFail path = true)
    (hfetch : fetchData env f budget path s = .ok (b, s₁)) :
    initResolve env f budget path s = (.ok (b, s₁), 1) := by
  unfold initResolve
  rw [if_pos hfail, hfetch]

/-- Witness for C5: a rejecting read on the key "old" still resolves via
the network. -/
theorem c5_corrupt_cache_recovery_witness :
    getFailFaults.getFail "old" = true ∧
    fetchData plainEnv getFailFaults 10 "old" [("old", [7, 7, 7])] =
      .ok ([1, 2], [("old", [1, 2])]) ∧
    initResolve plainEnv getFailFaults 10 "old" [("old", [7, 7, 7])] =
      (.ok ([1, 2], [("old", [1, 2])]), 1) := by
  refine ⟨by decide, rfl, ?_⟩
  exact c5_corrupt_cache_recovery plainEnv getFailFaults 10 "old" [("old", [7, 7, 7])]
    [("old", [1, 2])] [1, 2] (by decide) rfl

/-- Claim C6: eviction terminates (it is a total function of the finite
entry list), only ever removes existing entries, and never removes an
entry once the projected total fits the budget. -/
theorem c6_eviction_terminates (f : Faults) (budget incoming : Nat) (s : Store)
    (hn : KeysNodup s) :
    (validateCache f budget incoming s).Sublist s ∧
    (storeTotal s + incoming ≤ budget → validateCache noFaults budget incoming s = s) ∧
    (∀ (entries : List (String × Nat)) (n : Nat) (s2 : Store),
      n ≤ budget → evictLoop f budget entries n s2 = s2) := by
  refine ⟨validateCache_sublist f budget incoming s, ?_, ?_⟩
  · intro hle
    rw [validateCache_noFaults budget incoming s hn]
    exact evictLoop_noop noFaults budget (sizesOf s) _ s (Nat.not_lt.mpr hle)
  · intro entries n s2 hle
    exact evictLoop_noop f budget entries n s2 (Nat.not_lt.mpr hle)

/-- Witness for C6: a store with one entry, enough headroom so that no
eviction happens. -/
theorem c6_eviction_terminates_witness :
    KeysNodup ([("a", [1, 2])] : Store) ∧
    (validateCache noFaults 10 3 [("a", [1, 2])]).Sublist [("a", [1, 2])] ∧
    validateCache noFaults 10 3 [("a", [1, 2])] = [("a", [1, 2])] ∧
    evictLoop noFaults 10 [("a", 2)] 5 [("a", [1, 2])] = [("a", [1, 2])] := by
  have h := c6_eviction_terminates noFaults 10 3 [("a", [1, 2])] (by decide)
  exact ⟨by decide, h.1, h.2.1 (by decide), h.2.2 [("a", 2)] 5 _ (by decide)⟩

/-- Counterexample to C7 as stated: a session that is already Ready and
suffers a failing init keeps its runnable handle, so it is not left in
the Uninitialized state. -/
theorem c7_counterexample :
    (readySession.init failEnv noFaults "m" []).result = .error .network ∧
    (readySession.init failEnv noFaults "m" []).sess.ortSession.isSome = true := by
  constructor <;> rfl

/-- Claim C7 (amended): a failing init leaves the session state exactly
unchanged, so a session that was Uninitialized stays Uninitialized and may
retry, while a session that was already Ready keeps its previous handle. -/
theorem c7_failed_init_unchanged (env : Env) (f : Faults) (path : String)
    (sess : Session) (s : Store) (e : Err)
    (hfail : (sess.init env f path s).result = .error e) :
    (sess.init env f path s).sess = sess := by
  unfold Session.init at hfail ⊢
  split
  · rfl
  · split
    · rfl
    · simp only [*] at hfail
      cases hfail

/-- Witness for C7 (amended): an uninitialized session whose init fails
on the network stays uninitialized. -/
theorem c7_failed_init_unchanged_witness :
    ((Session.mk none 10).init failEnv noFaults "m" []).result = .error .network ∧
    ((Session.mk none 10).init failEnv noFaults "m" []).sess = Session.mk none 10 :=
  ⟨rfl, c7_failed_init_unchanged failEnv noFaults "m" (Session.mk none 10) [] .network rfl⟩

/-- Counterexample to C8 as stated: the path "gz" does not carry the
`.gz` suffix, yet `fetchData` decompresses its download (the returned
bytes are the inflated ones, not the raw three bytes). -/
theorem c8_counterexample :
    (".gz".data.isSuffixOf "gz".data) = false ∧
    gzEnv.net "gz" = some [1, 2, 3] ∧
    fetchData gzEnv noFaults 100 "gz" [] = .ok ([9, 9], [("gz", [9, 9])]) ∧
    ([9, 9] : Bytes) ≠ [1, 2, 3] := by
  refine ⟨by decide, rfl, rfl, by decide⟩

/-- Claim C8 (amended): `fetchData` decompresses the full payload exactly
when the segment of the path after its last dot equals "gz" (for a path
with no dot, the whole path); otherwise the download is returned
undecompressed; a decompression failure is propagated as a decode error. -/
theorem c8_gz_decompression (env : Env) (f : Faults) (budget : Nat) (path : String)
    (s : Store) (raw : Bytes) (hnet : env.net path = some raw) :
    (extension path = "gz" →
      (∀ b, env.infl raw = some b →
        ∃ s2, fetchData env f budget path s = .ok (b, s2)) ∧
      (env.infl raw = none → fetchData env f budget path s = .error .decode)) ∧
    (extension path ≠ "gz" →
      ∃ s2, fetchData env f budget path s = .ok (raw, s2)) := by
  constructor
  · intro hext
    constructor
    · intro b hb
      have hdec : decodeBytes env path raw = some b := by
        rw [decodeBytes_gz env path raw hext, hb]
      simp only [fetchData_eq_of_decode env f budget path s raw b hnet hdec]
      by_cases hsz : b.length > budget
      · exact ⟨s, by rw [if_pos hsz]⟩
      · exact ⟨_, by rw [if_neg hsz]⟩
    · intro hb
      have hdec : decodeBytes env path raw = none := by
        rw [decodeBytes_gz env path raw hext, hb]
      exact fetchData_decode_error env f budget path s raw hnet hdec
  · intro hext
    have hdec : decodeBytes env path raw = some raw :=
      decodeBytes_not_gz env path raw hext
    simp only [fetchData_eq_of_decode env f budget path s raw raw hnet hdec]
    by_cases hsz : raw.length > budget
    · exact ⟨s, by rw [if_pos hsz]⟩
    · exact ⟨_, by rw [if_neg hsz]⟩

/-- Witness for C8 (amended): the path "a.gz" is decompressed; the path
"m" is returned raw. -/
theorem c8_gz_decompression_witness :
    gzEnv.net "a.gz" = some [1, 2, 3] ∧
    (∃ s2, fetchData gzEnv noFaults 100 "a.gz" [] = .ok ([9, 9], s2)) ∧
    (∃ s2, fetchData plainEnv noFaults 100 "m" [] = .ok ([1, 2], s2)) :=
  ⟨rfl,
   ((c8_gz_decompression gzEnv noFaults 100 "a.gz" [] [1, 2, 3] rfl).1
      (by decide)).1 [9, 9] rfl,
   (c8_gz_decompression plainEnv noFaults 100 "m" [] [1, 2] rfl).2 (by decide)⟩

/-- Claim C9: on an error while reading the store contents, the budget
enforcer returns with the store unmodified, and the subsequent insert in
`fetchData` still proceeds. -/
theorem c9_enforcer_error_swallowed (env : Env) (f : Faults) (budget : Nat)
    (path : String) (s : Store) (raw b : Bytes)
    (hnet : env.net path = some raw) (hdec : decodeBytes env path raw = some b)
    (hsize : b.length ≤ budget)
    (hfault : f.keysFail = true ∨ ∃ k ∈ storeKeys s, f.getFail k = true)
    (hset : f.setFail path = false) :
    validateCache f budget b.length s = s ∧
    fetchData env f budget path s = .ok (b, storeSet s path b) := by
  have hvc : validateCache f budget b.length s = s := by
    unfold validateCache
    cases hfault with
    | inl hk => rw [if_pos hk]
    | inr hg =>
      by_cases hk : f.keysFail = true
      · rw [if_pos hk]
      · rw [if_neg hk, readSizes_fail f s (storeKeys s) hg]
  refine ⟨hvc, ?_⟩
  rw [fetchData_eq_of_decode env f budget path s raw b hnet hdec,
    if_neg (Nat.not_lt.mpr hsize)]
  simp only [hvc, hset, Bool.false_eq_true, if_false]

/-- Witness for C9: a rejecting size read leaves the oversized store
untouched and the insert goes through, temporarily exceeding the budget. -/
theorem c9_enforcer_error_swallowed_witness :
    validateCache getFailFaults 3 2 [("old", [7, 7, 7])] = [("old", [7, 7, 7])] ∧
    fetchData plainEnv getFailFaults 3 "m" [("old", [7, 7, 7])] =
      .ok ([1, 2], storeSet [("old", [7, 7, 7])] "m" [1, 2]) ∧
    storeTotal (storeSet [("old", [7, 7, 7])] "m" [1, 2]) > 3 := by
  have h := c9_enforcer_error_swallowed plainEnv getFailFaults 3 "m"
    [("old", [7, 7, 7])] [1, 2] [1, 2] rfl (by decide) (by decide)
    (Or.inr ⟨"old", by decide, by decide⟩) (by decide)
  exact ⟨h.1, h.2, by decide⟩

/-- Claim C10: an artifact whose size equals the budget exactly passes the
strict size guard, eviction runs, and the artifact is inserted. -/
theorem c10_exact_budget_cached (env : Env) (budget : Nat) (path : String)
    (s : Store) (raw b : Bytes)
    (hnet : env.net path = some raw) (hdec : decodeBytes env path raw = some b)
    (hsize : b.length = budget) :
    fetchData env noFaults budget path s =
      .ok (b, storeSet (validateCache noFaults budget b.length s) path b) ∧
    storeGet (storeSet (validateCache noFaults budget b.length s) path b) path
      = some b := by
  constructor
  · rw [fetchData_eq_of_decode env noFaults budget path s raw b hnet hdec,
      if_neg (by omega)]
    simp only [noFaults_setFail, Bool.false_eq_true, if_false]
  · exact storeGet_set_self _ path b

/-- Witness for C10: a three-byte artifact against a three-byte budget is
cached, evicting the pre-existing entry. -/
theorem c10_exact_budget_cached_witness :
    fetchData exactEnv noFaults 3 "m" [("old", [7])] =
      .ok ([1, 2, 3],
        storeSet (validateCache noFaults 3 3 [("old", [7])]) "m" [1, 2, 3]) ∧
    storeGet (storeSet (validateCache noFaults 3 3 [("old", [7])]) "m" [1, 2, 3]) "m"
      = some [1, 2, 3] :=
  c10_exact_budget_cached exactEnv 3 "m" [("old", [7])] [1, 2, 3] [1, 2, 3]
    rfl (by decide) (by decide)

end WebAI
